import Mathlib

/-!
# Verification of RPM-To-Locked-Rotor

Shallow embedding of the repository's C sources:

* `src/jiffies.c` — a monotonic tick clock built on an 8-bit free-running
  hardware counter (TCNT0), its overflow-pending flag (TOV0 in TIFR) and an
  overflow interrupt handler that adds 256 to the high-order accumulator
  `timer_ticks_hi`.
* `src/main.c` — a per-channel 4-state machine (`fsm_run`) driving a
  locked-rotor output from the tachometer toggle rate.

The header `jiffies.h` (declaring the unsigned integer type `jiffies_t` and
the constant `JIFFIES_PER_SECOND`) is not among the sources.  Modelled from
the spec: the tick type is a wide fixed-width unsigned integer, so all
jiffies arithmetic is carried out in `Nat` modulo a parameter `M` (the
modulus of `jiffies_t`, e.g. `2^32`), and the sample-window duration
`SAMPLE_JIFFIES = JIFFIES_PER_SECOND` is a parameter `sj`.  The `toggles`
field is a C `uint32_t`, hence fixed modulus `U32` below.
-/

set_option autoImplicit false

namespace RpmToLockedRotor

/-- Modulus of the C `uint32_t` type (the `toggles` counter in `main.c`). -/
def U32 : Nat := 4294967296

/-- Unsigned wraparound subtraction in the `jiffies_t` type of modulus `M`:
the value the C expression `a - b` takes when `a` and `b` are unsigned
values reduced modulo `M`.  Every elapsed-time comparison in `fsm_run`
(`curr_time - channel->time`, `curr_time - channel->prev_sample_time`) is
embedded with this function. -/
def wsub (M a b : Nat) : Nat := (a % M + (M - b % M)) % M

theorem wsub_of_le {M a b : Nat} (hb : b ≤ a) (ha : a < M) :
    wsub M a b = a - b := by
  have hM : 0 < M := Nat.lt_of_le_of_lt (Nat.zero_le a) ha
  have hbM : b < M := Nat.lt_of_le_of_lt hb ha
  unfold wsub
  rw [Nat.mod_eq_of_lt ha, Nat.mod_eq_of_lt hbM]
  have h1 : a + (M - b) = M + (a - b) := by omega
  rw [h1, Nat.add_comm M (a - b), Nat.add_mod_right, Nat.mod_eq_of_lt (by omega)]

/-- Claim C3: for all true tick values `earlier ≤ later`, if the true
elapsed duration `later - earlier` is below half the representable range of
the `jiffies_t` type (modulus `M`), then the unsigned wraparound difference
of their reduced (stored) representatives recovers the true duration —
including pairs straddling the type's maximum. -/
theorem c3_wraparound_subtraction (M earlier later : Nat)
    (hle : earlier ≤ later) (hdur : later - earlier < M / 2) :
    wsub M (later % M) (earlier % M) = later - earlier := by
  have hM : 0 < M := by omega
  have hE : earlier % M < M := Nat.mod_lt _ hM
  have hL : later % M < M := Nat.mod_lt _ hM
  have hdm : later - earlier < M := by omega
  unfold wsub
  rw [Nat.mod_mod_of_dvd later dvd_rfl, Nat.mod_mod_of_dvd earlier dvd_rfl]
  have hEq : earlier = M * (earlier / M) + earlier % M := (Nat.div_add_mod earlier M).symm
  have hLq : later = M * (later / M) + later % M := (Nat.div_add_mod later M).symm
  have hmul : M * (earlier / M + 1) = M * (earlier / M) + M := by ring
  have key : later % M + (M - earlier % M) + M * (later / M) =
      (later - earlier) + M * (earlier / M + 1) := by omega
  calc (later % M + (M - earlier % M)) % M
      = (later % M + (M - earlier % M) + M * (later / M)) % M := by
        rw [Nat.add_mul_mod_self_left]
    _ = ((later - earlier) + M * (earlier / M + 1)) % M := by rw [key]
    _ = (later - earlier) % M := by rw [Nat.add_mul_mod_self_left]
    _ = later - earlier := Nat.mod_eq_of_lt hdm

/-- Witness for C3: ticks straddling the 32-bit maximum, `earlier = 2^32 - 3`
and `later = 2^32 + 5`; the stored difference recovers the true duration 8. -/
theorem c3_witness :
    wsub U32 ((4294967301 : Nat) % U32) ((4294967293 : Nat) % U32) = 8 :=
  c3_wraparound_subtraction U32 4294967293 4294967301 (by omega)
    (by unfold U32; omega)

/-! ## Tick clock (`src/jiffies.c`)

The hardware is modelled by its ground truth: `t` is the absolute number of
hardware ticks since `jiffies_init()` (which zeroes TCNT0, TIFR's TOV0 bit
and `timer_ticks_hi`, establishing time origin zero).  The 8-bit counter
TCNT0 holds `t % 256`; one overflow occurs per completed 256-tick period;
`s` counts the overflows already serviced by the ISR. -/

/-- TCNT0 sampled at absolute hardware tick `t` (8-bit free-running
counter). -/
def tcntAt (t : Nat) : Nat := t % 256

/-- The TOV0 overflow-pending bit of TIFR sampled at absolute tick `t` when
the ISR has serviced `s` overflows so far: pending iff more overflows have
occurred (one per completed 256-tick period) than have been serviced. -/
def tovAt (s t : Nat) : Bool := decide (s < t / 256)

/-- `timer_ticks_hi` after the overflow ISR (`ISR(TIMER0_OVF_vect)`,
jiffies.c lines 16-19) has run `s` times, each run adding `256u` in
`jiffies_t` arithmetic (modulus `M`). -/
def timer_ticks_hi (M s : Nat) : Nat := (256 * s) % M

/-- The flag/counter/flag retry loop of `jiffies()` (jiffies.c lines
50-54).  Interrupts are masked, so the serviced-overflow count `s` is
frozen, but the hardware counter keeps running: the `n`-th hardware
register read of the call happens at absolute tick `τ n`.  The iteration
that starts at read index `n` samples TIFR, TCNT0, TIFR at ticks `τ n`,
`τ (n+1)`, `τ (n+2)` and retries while the two flag samples differ.
Returns `(tifr_before, tcnt, i)` where `i` is the read index of the
accepted TCNT0 sample, or `none` when `fuel` iterations did not settle. -/
def readLoop (s : Nat) (τ : Nat → Nat) : Nat → Nat → Option (Bool × Nat × Nat)
  | 0, _ => none
  | fuel + 1, n =>
    let tifr_before := tovAt s (τ n)
    let tcnt := tcntAt (τ (n + 1))
    let tifr_after := tovAt s (τ (n + 2))
    if tifr_before = tifr_after then some (tifr_before, tcnt, n + 1)
    else readLoop s τ fuel (n + 3)

/-- `jiffies()` (jiffies.c lines 40-65): run the retry loop inside the
interrupt-masked critical section, then return `timer_ticks_hi + tcnt`,
plus `256u` more when the pending flag was observed set, in `jiffies_t`
arithmetic (modulus `M`). -/
def jiffies (M s : Nat) (τ : Nat → Nat) (fuel : Nat) : Option Nat :=
  (readLoop s τ fuel 0).map fun r =>
    (timer_ticks_hi M s + r.2.1 + if r.1 then 256 else 0) % M

/-- Any accepted read-loop result is a consistent snapshot: the counter
value is TCNT0 at the accepted sample's tick, and the reported flag is the
TOV0 value both immediately before and immediately after that sample. -/
theorem readLoop_sound (s : Nat) (τ : Nat → Nat) :
    ∀ fuel n b tcnt i, readLoop s τ fuel n = some (b, tcnt, i) →
      tcnt = tcntAt (τ i) ∧ b = tovAt s (τ (i - 1)) ∧ b = tovAt s (τ (i + 1)) := by
  intro fuel
  induction fuel with
  | zero => intro n b tcnt i h; simp [readLoop] at h
  | succ fuel ih =>
    intro n b tcnt i h
    unfold readLoop at h
    simp only at h
    split at h
    · rename_i heq
      injection h with h'
      injection h' with hb h'
      injection h' with htc hi
      subst hb; subst htc; subst hi
      exact ⟨rfl, by simp, heq⟩
    · exact ih _ _ _ _ h

/-- Claim C1: every value returned by `jiffies()` equals the high-order
accumulator plus the TCNT0 value sampled in the accepted loop iteration,
with the counter's full range 256 added exactly when the overflow-pending
flag observed before that sample (`tifr_before`) was set; moreover the
accepted sample is a consistent pair (the flag reads bracketing the counter
sample agree with `tifr_before`). -/
theorem c1_jiffies_compensation (M s fuel : Nat) (τ : Nat → Nat)
    (b : Bool) (tcnt i : Nat)
    (h : readLoop s τ fuel 0 = some (b, tcnt, i)) :
    jiffies M s τ fuel
      = some ((timer_ticks_hi M s + tcnt + if b then 256 else 0) % M)
    ∧ tcnt = tcntAt (τ i)
    ∧ b = tovAt s (τ (i - 1)) ∧ b = tovAt s (τ (i + 1)) := by
  refine ⟨by simp [jiffies, h], ?_, ?_, ?_⟩
  · exact (readLoop_sound s τ fuel 0 b tcnt i h).1
  · exact (readLoop_sound s τ fuel 0 b tcnt i h).2.1
  · exact (readLoop_sound s τ fuel 0 b tcnt i h).2.2

/-- Witness for C1: one overflow has occurred and been serviced
(`timer_ticks_hi = 256`); reads at ticks 300, 301, 302 observe no pending
flag and TCNT0 = 45, and the call returns 256 + 45 = 301. -/
theorem c1_witness :
    jiffies U32 1 (fun n => 300 + n) 1
      = some ((timer_ticks_hi U32 1 + 45 + if false then 256 else 0) % U32) ∧
      (45 : Nat) = tcntAt 301 := by
  have h : readLoop 1 (fun n => 300 + n) 1 0 = some (false, 45, 1) := rfl
  exact ⟨(c1_jiffies_compensation U32 1 1 (fun n => 300 + n) false 45 1 h).1,
    (c1_jiffies_compensation U32 1 1 (fun n => 300 + n) false 45 1 h).2.1⟩

/-- Compensation correctness: when the register-read schedule of a call is
monotone, the ISR was not behind at the start of the call (`s ≤ τ 0 / 256`)
and at most one overflow is ever pending during the call
(`τ n / 256 ≤ s + 1`), the value computed from any accepted snapshot equals
the absolute hardware tick of the accepted TCNT0 sample, modulo `M`. -/
theorem readLoop_value_correct (M s : Nat) (τ : Nat → Nat)
    (hmono : Monotone τ) (hlo : s ≤ τ 0 / 256) (hhi : ∀ n, τ n / 256 ≤ s + 1) :
    ∀ fuel n b tcnt i, readLoop s τ fuel n = some (b, tcnt, i) →
      (timer_ticks_hi M s + tcnt + if b then 256 else 0) % M = τ i % M := by
  intro fuel
  induction fuel with
  | zero => intro n b tcnt i h; simp [readLoop] at h
  | succ fuel ih =>
    intro n b tcnt i h
    unfold readLoop at h
    simp only at h
    split at h
    · rename_i heq
      injection h with h'
      injection h' with hb h'
      injection h' with htc hi
      subst hb; subst htc; subst hi
      have hdiv : ∀ a c : Nat, a ≤ c → τ a / 256 ≤ τ c / 256 :=
        fun a c hac => Nat.div_le_div_right (hmono hac)
      have hlow : s ≤ τ (n + 1) / 256 :=
        Nat.le_trans hlo (hdiv 0 (n + 1) (Nat.zero_le _))
      cases hB : tovAt s (τ n) with
      | false =>
        rw [hB] at heq
        have hafter : ¬ s < τ (n + 2) / 256 := by
          have := heq.symm
          simpa [tovAt] using this
        have hup : τ (n + 1) / 256 ≤ s :=
          Nat.le_trans (hdiv (n + 1) (n + 2) (by omega)) (Nat.le_of_not_lt hafter)
        have hs : s = τ (n + 1) / 256 := Nat.le_antisymm hlow hup
        simp only [if_neg (Bool.false_ne_true), Nat.add_zero, timer_ticks_hi]
        rw [Nat.mod_add_mod, hs, tcntAt, Nat.div_add_mod]
      | true =>
        have hbefore : s < τ n / 256 := by simpa [tovAt] using hB
        have hs : τ (n + 1) / 256 = s + 1 :=
          Nat.le_antisymm (hhi (n + 1))
            (Nat.lt_of_lt_of_le hbefore (hdiv n (n + 1) (by omega)))
        simp only [eq_self_iff_true, if_true, timer_ticks_hi]
        rw [Nat.add_assoc, Nat.mod_add_mod, ← Nat.add_assoc]
        have harith : 256 * s + tcntAt (τ (n + 1)) + 256
            = 256 * (τ (n + 1) / 256) + τ (n + 1) % 256 := by
          rw [hs, tcntAt]; ring
        rw [harith, Nat.div_add_mod]
    · exact ih _ _ _ _ h

/-- Termination of the retry loop: with a monotone read schedule the
pending flag can only go from clear to set, so the loop settles within two
iterations — even when an overflow lands between the two flag reads of the
first iteration. -/
theorem readLoop_terminates (s : Nat) (τ : Nat → Nat) (hmono : Monotone τ) :
    ∃ r, readLoop s τ 2 0 = some r := by
  by_cases h1 : tovAt s (τ 0) = tovAt s (τ 2)
  · refine ⟨(tovAt s (τ 0), tcntAt (τ 1), 1), ?_⟩
    show readLoop s τ (1 + 1) 0 = _
    rw [readLoop]
    simp [h1]
  · have h0 : tovAt s (τ 0) = false := by
      cases h0 : tovAt s (τ 0) with
      | false => rfl
      | true =>
        exfalso
        apply h1
        rw [h0]
        have hlt : s < τ 0 / 256 := by simpa [tovAt] using h0
        have : s < τ 2 / 256 :=
          Nat.lt_of_lt_of_le hlt (Nat.div_le_div_right (hmono (by omega)))
        simp [tovAt, this]
    have h2 : tovAt s (τ 2) = true := by
      cases h2 : tovAt s (τ 2) with
      | true => rfl
      | false => exact absurd (h0.trans h2.symm) h1
    have hlt : s < τ 2 / 256 := by simpa [tovAt] using h2
    have h3 : tovAt s (τ 3) = true := by
      have : s < τ 3 / 256 :=
        Nat.lt_of_lt_of_le hlt (Nat.div_le_div_right (hmono (by omega)))
      simp [tovAt, this]
    have h5 : tovAt s (τ 5) = true := by
      have : s < τ 5 / 256 :=
        Nat.lt_of_lt_of_le hlt (Nat.div_le_div_right (hmono (by omega)))
      simp [tovAt, this]
    refine ⟨(true, tcntAt (τ 4), 4), ?_⟩
    show readLoop s τ (1 + 1) 0 = _
    rw [readLoop]
    rw [if_neg h1]
    show readLoop s τ (0 + 1) 3 = _
    rw [readLoop]
    rw [if_pos (h3.trans h5.symm)]
    simp [h3]

/-- Claim C2: two successive `jiffies()` calls after `jiffies_init()` (the
second's reads all at or after the first's), each with a monotone read
schedule, the ISR caught up at call entry, at most one overflow pending
during the call, and all read ticks inside the `jiffies_t` range: both
calls return (within two loop iterations, so overflow between the flag
reads is tolerated), each returned value is exactly the absolute hardware
tick of its accepted counter sample (the correctly compensated tick
count), and the returned values are non-decreasing. -/
theorem c2_jiffies_monotone (M s₁ s₂ : Nat) (τ₁ τ₂ : Nat → Nat)
    (h1m : Monotone τ₁) (h2m : Monotone τ₂)
    (h1lo : s₁ ≤ τ₁ 0 / 256) (h1hi : ∀ n, τ₁ n / 256 ≤ s₁ + 1)
    (h2lo : s₂ ≤ τ₂ 0 / 256) (h2hi : ∀ n, τ₂ n / 256 ≤ s₂ + 1)
    (horder : ∀ n m, τ₁ n ≤ τ₂ m) (hrange : ∀ n, τ₂ n < M) :
    ∃ v₁ v₂ : Nat,
      jiffies M s₁ τ₁ 2 = some v₁ ∧ jiffies M s₂ τ₂ 2 = some v₂ ∧
      v₁ ≤ v₂ ∧
      (∀ b tcnt i, readLoop s₁ τ₁ 2 0 = some (b, tcnt, i) → v₁ = τ₁ i) ∧
      (∀ b tcnt i, readLoop s₂ τ₂ 2 0 = some (b, tcnt, i) → v₂ = τ₂ i) := by
  obtain ⟨⟨b₁, t₁, i₁⟩, h₁⟩ := readLoop_terminates s₁ τ₁ h1m
  obtain ⟨⟨b₂, t₂, i₂⟩, h₂⟩ := readLoop_terminates s₂ τ₂ h2m
  have hr1 : ∀ n, τ₁ n < M := fun n => Nat.lt_of_le_of_lt (horder n 0) (hrange 0)
  have hv₁ : (timer_ticks_hi M s₁ + t₁ + if b₁ then 256 else 0) % M = τ₁ i₁ := by
    rw [readLoop_value_correct M s₁ τ₁ h1m h1lo h1hi 2 0 b₁ t₁ i₁ h₁,
      Nat.mod_eq_of_lt (hr1 i₁)]
  have hv₂ : (timer_ticks_hi M s₂ + t₂ + if b₂ then 256 else 0) % M = τ₂ i₂ := by
    rw [readLoop_value_correct M s₂ τ₂ h2m h2lo h2hi 2 0 b₂ t₂ i₂ h₂,
      Nat.mod_eq_of_lt (hrange i₂)]
  refine ⟨τ₁ i₁, τ₂ i₂, by simp [jiffies, h₁, hv₁], by simp [jiffies, h₂, hv₂],
    horder i₁ i₂, ?_, ?_⟩
  · intro b tcnt i h
    rw [h₁] at h
    injection h with h'
    injection h' with hb h'
    injection h' with htc hi
    rw [hi]
  · intro b tcnt i h
    rw [h₂] at h
    injection h with h'
    injection h' with hb h'
    injection h' with htc hi
    rw [hi]

/-- Witness for C2: first call reads at the constant tick 1; second call
reads at ticks `min (255+n) 260`, so an overflow (at tick 256) lands
between its first two flag reads, forcing one retry; the calls return 1 and
259 respectively — non-decreasing and equal to the true read ticks. -/
theorem c2_witness :
    ∃ v₁ v₂ : Nat,
      jiffies U32 0 (fun _ => 1) 2 = some v₁ ∧
      jiffies U32 0 (fun n => min (255 + n) 260) 2 = some v₂ ∧
      v₁ ≤ v₂ ∧
      (∀ b tcnt i, readLoop 0 (fun _ => 1) 2 0 = some (b, tcnt, i) →
        v₁ = (fun _ : Nat => (1 : Nat)) i) ∧
      (∀ b tcnt i, readLoop 0 (fun n => min (255 + n) 260) 2 0 = some (b, tcnt, i) →
        v₂ = (fun n : Nat => min (255 + n) 260) i) := by
  apply c2_jiffies_monotone U32 0 0 (fun _ => 1) (fun n => min (255 + n) 260)
  · exact fun a c h => Nat.le_refl 1
  · intro a c h; dsimp only; omega
  · exact Nat.zero_le _
  · intro n; omega
  · exact Nat.zero_le _
  · intro n; omega
  · intro n m; omega
  · intro n; dsimp only [U32]; omega

/-! ## Channel state machine (`src/main.c`)

One channel of `fsm_run` (lines 117-195): the per-channel body of the
`switch` on `channel->state`, stepped with the timestamp `curr_time`
sampled once per loop iteration and the channel's input pin reading
`curr_input`.  The enum `fsm_state` is represented by its C integer value
so that out-of-range values (the `default` case) are expressible.  The
output pin's drive state is threaded through explicitly: `drive_low`
asserts the pin low, `float_high` releases it to high impedance. -/

/-- `FSM_STATE_INIT` (main.c line 54). -/
def FSM_STATE_INIT : Nat := 0

/-- `FSM_STATE_POWER_ON` (main.c line 60). -/
def FSM_STATE_POWER_ON : Nat := 1

/-- `FSM_STATE_SPIN_UP` (main.c line 66). -/
def FSM_STATE_SPIN_UP : Nat := 2

/-- `FSM_STATE_RUNNING` (main.c line 69). -/
def FSM_STATE_RUNNING : Nat := 3

/-- `POWER_ON_JIFFIES` (main.c line 22). -/
def POWER_ON_JIFFIES : Nat := 0

/-- `TOGGLE_COUNT_THRESHOLD` (main.c line 38). -/
def TOGGLE_COUNT_THRESHOLD : Nat := 40

/-- `SPIN_UP_JIFFIES = SAMPLE_JIFFIES * 5u` (main.c line 32), as a function
of the sample-window duration `sj` (`SAMPLE_JIFFIES = JIFFIES_PER_SECOND`,
whose numeric value lives in the absent `jiffies.h`). -/
def SPIN_UP_JIFFIES (sj : Nat) : Nat := sj * 5

/-- The drive state of a channel's output pin: `floating` after
`float_high()` (high impedance, read as logic high externally), `low`
after `drive_low()` (main.c lines 96-114). -/
inductive PinDrive where
  | floating
  | low
deriving DecidableEq, Repr

/-- `struct rpm_to_locked_rotor_channel` (main.c lines 74-81).  `state`
carries the C integer value of `enum fsm_state`; `time` and
`prev_sample_time` are `jiffies_t` values; `toggles` is a `uint32_t`. -/
structure Channel where
  state : Nat
  time : Nat
  prev_sample_time : Nat
  under_threshold : Bool
  prev_input_state : Bool
  toggles : Nat
deriving DecidableEq, Repr

/-- The zero-initialised channel of the static instance `g_inst`
(main.c line 85): all fields zero / false, state `FSM_STATE_INIT`. -/
def initChannel : Channel :=
  { state := FSM_STATE_INIT, time := 0, prev_sample_time := 0,
    under_threshold := false, prev_input_state := false, toggles := 0 }

/-- One invocation of the per-channel `switch` body of `fsm_run`
(main.c lines 129-193) for a channel `c` whose output pin currently has
drive state `pin`, with the shared timestamp `curr_time` and the input
reading `curr_input`.  `M` is the `jiffies_t` modulus and `sj` is
`SAMPLE_JIFFIES`.  Returns the updated channel and pin drive. -/
def fsmStep (M sj curr_time : Nat) (curr_input : Bool) (c : Channel)
    (pin : PinDrive) : Channel × PinDrive :=
  if c.state = FSM_STATE_INIT then
    ({ c with time := curr_time, state := FSM_STATE_POWER_ON }, pin)
  else if c.state = FSM_STATE_POWER_ON then
    if wsub M curr_time c.time > POWER_ON_JIFFIES then
      ({ c with state := FSM_STATE_SPIN_UP, time := curr_time,
                prev_sample_time := curr_time }, PinDrive.low)
    else (c, pin)
  else if c.state = FSM_STATE_SPIN_UP then
    let c1 := if curr_input ≠ c.prev_input_state then
        { c with toggles := (c.toggles + 1) % U32, prev_input_state := curr_input }
      else c
    let c2 := if wsub M curr_time c1.prev_sample_time > sj then
        { c1 with under_threshold := decide (c1.toggles < TOGGLE_COUNT_THRESHOLD),
                  toggles := 0, prev_sample_time := curr_time }
      else c1
    let c3 := if wsub M curr_time c2.time > SPIN_UP_JIFFIES sj then
        { c2 with state := FSM_STATE_RUNNING }
      else c2
    (c3, pin)
  else if c.state = FSM_STATE_RUNNING then
    let c1 := if curr_input ≠ c.prev_input_state then
        { c with toggles := (c.toggles + 1) % U32, prev_input_state := curr_input }
      else c
    let c2 := if wsub M curr_time c1.prev_sample_time > sj then
        { c1 with under_threshold := decide (c1.toggles < TOGGLE_COUNT_THRESHOLD),
                  toggles := 0, prev_sample_time := curr_time }
      else c1
    (c2, if c2.under_threshold then PinDrive.floating else PinDrive.low)
  else
    (c, PinDrive.floating)

/-- A sequence of `fsm_run` invocations for one channel: each list element
gives the timestamp sampled by that invocation and the channel's input
reading. -/
def fsmRun (M sj : Nat) (steps : List (Nat × Bool)) (c : Channel)
    (pin : PinDrive) : Channel × PinDrive :=
  steps.foldl (fun cp st => fsmStep M sj st.1 st.2 cp.1 cp.2) (c, pin)

/-- Claim C4: with a one-unit sample window (`sj = 1`), so that
`POWER_ON_JIFFIES = 0` and `SPIN_UP_JIFFIES = 5` units, a channel started
at tick 0: the first step (at tick 0) moves Init→PowerOn recording entry
time 0; a PowerOn step still at tick 0 does not transition; a PowerOn step
at any later tick `0 < t < M` moves to SpinUp, driving the pin low and
resetting both timestamps to `t`; and a SpinUp step reaches Running exactly
when the elapsed time since entering SpinUp exceeds 5 units — regardless of
the sampled input and of the interim `under_threshold` verdict. -/
theorem c4_state_sequencing (M : Nat) :
    (∀ input pin,
      fsmStep M 1 0 input initChannel pin
        = ({ initChannel with state := FSM_STATE_POWER_ON }, pin))
    ∧ (∀ input pin (c : Channel), c.state = FSM_STATE_POWER_ON → c.time = 0 →
        fsmStep M 1 0 input c pin = (c, pin))
    ∧ (∀ input pin (c : Channel) (t : Nat), c.state = FSM_STATE_POWER_ON →
        c.time = 0 → 0 < t → t < M →
        fsmStep M 1 t input c pin
          = ({ c with state := FSM_STATE_SPIN_UP, time := t, prev_sample_time := t },
             PinDrive.low))
    ∧ (∀ input pin (c : Channel) (t : Nat), c.state = FSM_STATE_SPIN_UP →
        c.time ≤ t → t < M →
        ((fsmStep M 1 t input c pin).1.state = FSM_STATE_RUNNING
          ↔ 5 < t - c.time)) := by
  refine ⟨?_, ?_, ?_, ?_⟩
  · intro input pin
    rfl
  · intro input pin c h ht
    have hw : wsub M 0 0 = 0 := by simp [wsub]
    simp [fsmStep, h, ht, FSM_STATE_INIT, FSM_STATE_POWER_ON, POWER_ON_JIFFIES, hw]
  · intro input pin c t h ht h0 htM
    have hw : wsub M t 0 = t := by
      have := wsub_of_le (Nat.zero_le t) htM
      simpa using this
    simp [fsmStep, h, ht, FSM_STATE_INIT, FSM_STATE_POWER_ON, FSM_STATE_SPIN_UP,
      POWER_ON_JIFFIES, hw, h0]
  · intro input pin c t h hle htM
    have hw : wsub M t c.time = t - c.time := wsub_of_le hle htM
    by_cases htg : input ≠ c.prev_input_state <;>
      by_cases hwin : 1 < wsub M t c.prev_sample_time <;>
        by_cases htr : 5 < t - c.time <;>
          simp [fsmStep, h, FSM_STATE_INIT, FSM_STATE_POWER_ON, FSM_STATE_SPIN_UP,
            FSM_STATE_RUNNING, SPIN_UP_JIFFIES, hw, htg, hwin, htr]

/-- Witness for C4: the first step at tick 0 moves the zeroed channel to
PowerOn; a SpinUp channel entered at tick 0 and stepped at tick 6 (elapsed
6 > 5) reaches Running. -/
theorem c4_witness :
    fsmStep U32 1 0 false initChannel PinDrive.floating
      = ({ initChannel with state := FSM_STATE_POWER_ON }, PinDrive.floating)
    ∧ (fsmStep U32 1 6 false
        { state := FSM_STATE_SPIN_UP, time := 0, prev_sample_time := 0,
          under_threshold := false, prev_input_state := false, toggles := 0 }
        PinDrive.low).1.state = FSM_STATE_RUNNING := by
  refine ⟨(c4_state_sequencing U32).1 false PinDrive.floating, ?_⟩
  exact ((c4_state_sequencing U32).2.2.2 false PinDrive.low
    { state := FSM_STATE_SPIN_UP, time := 0, prev_sample_time := 0,
      under_threshold := false, prev_input_state := false, toggles := 0 }
    6 rfl (by decide) (by decide)).mpr (by decide)

/-- Claim C5: in SpinUp and Running, a step whose elapsed time since
`prev_sample_time` exceeds `sj` (a window boundary) latches
`under_threshold = (toggles < TOGGLE_COUNT_THRESHOLD)` — where `toggles`
includes this step's own toggle detection — resets `toggles` to 0 and sets
`prev_sample_time` to the current tick; and `under_threshold` changes at no
other step: every step that is not such a boundary leaves it unchanged. -/
theorem c5_window_boundary (M sj t : Nat) (input : Bool) (c : Channel)
    (pin : PinDrive) :
    ((c.state = FSM_STATE_SPIN_UP ∨ c.state = FSM_STATE_RUNNING) →
      sj < wsub M t c.prev_sample_time →
      (fsmStep M sj t input c pin).1.under_threshold
          = decide ((if input ≠ c.prev_input_state then (c.toggles + 1) % U32
              else c.toggles) < TOGGLE_COUNT_THRESHOLD)
        ∧ (fsmStep M sj t input c pin).1.toggles = 0
        ∧ (fsmStep M sj t input c pin).1.prev_sample_time = t)
    ∧ (¬ ((c.state = FSM_STATE_SPIN_UP ∨ c.state = FSM_STATE_RUNNING)
          ∧ sj < wsub M t c.prev_sample_time) →
      (fsmStep M sj t input c pin).1.under_threshold = c.under_threshold) := by
  constructor
  · rintro (h | h) hwin
    · by_cases htg : input ≠ c.prev_input_state <;>
        by_cases htr : SPIN_UP_JIFFIES sj < wsub M t c.time <;>
          simp [fsmStep, h, FSM_STATE_INIT, FSM_STATE_POWER_ON, FSM_STATE_SPIN_UP,
            FSM_STATE_RUNNING, htg, hwin, htr]
    · by_cases htg : input ≠ c.prev_input_state <;>
        simp [fsmStep, h, FSM_STATE_INIT, FSM_STATE_POWER_ON, FSM_STATE_SPIN_UP,
          FSM_STATE_RUNNING, htg, hwin]
  · intro hn
    by_cases h0 : c.state = FSM_STATE_INIT
    · simp [fsmStep, h0, FSM_STATE_INIT]
    by_cases h1 : c.state = FSM_STATE_POWER_ON
    · by_cases hpw : POWER_ON_JIFFIES < wsub M t c.time <;>
        simp [fsmStep, h0, h1, FSM_STATE_INIT, FSM_STATE_POWER_ON, hpw]
    by_cases h2 : c.state = FSM_STATE_SPIN_UP
    · have hwin : ¬ sj < wsub M t c.prev_sample_time := fun hw => hn ⟨Or.inl h2, hw⟩
      by_cases htg : input ≠ c.prev_input_state <;>
        by_cases htr : SPIN_UP_JIFFIES sj < wsub M t c.time <;>
          simp [fsmStep, h0, h1, h2, FSM_STATE_INIT, FSM_STATE_POWER_ON,
            FSM_STATE_SPIN_UP, FSM_STATE_RUNNING, htg, hwin, htr]
    by_cases h3 : c.state = FSM_STATE_RUNNING
    · have hwin : ¬ sj < wsub M t c.prev_sample_time := fun hw => hn ⟨Or.inr h3, hw⟩
      by_cases htg : input ≠ c.prev_input_state <;>
        simp [fsmStep, h0, h1, h2, h3, FSM_STATE_INIT, FSM_STATE_POWER_ON,
          FSM_STATE_SPIN_UP, FSM_STATE_RUNNING, htg, hwin]
    · simp [fsmStep, h0, h1, h2, h3]

/-- Witness for C5: with `TOGGLE_COUNT_THRESHOLD = 40`, a Running channel
crossing a window boundary with 52 accumulated toggles latches
`under_threshold = false`, and one with 10 toggles latches `true`. -/
theorem c5_witness :
    (fsmStep U32 1 5 false
      { state := FSM_STATE_RUNNING, time := 0, prev_sample_time := 0,
        under_threshold := true, prev_input_state := false, toggles := 52 }
      PinDrive.low).1.under_threshold = false
    ∧ (fsmStep U32 1 5 false
      { state := FSM_STATE_RUNNING, time := 0, prev_sample_time := 0,
        under_threshold := false, prev_input_state := false, toggles := 10 }
      PinDrive.low).1.under_threshold = true := by
  constructor
  · exact (((c5_window_boundary U32 1 5 false
      { state := FSM_STATE_RUNNING, time := 0, prev_sample_time := 0,
        under_threshold := true, prev_input_state := false, toggles := 52 }
      PinDrive.low).1 (Or.inr rfl) (by decide)).1).trans (by decide)
  · exact (((c5_window_boundary U32 1 5 false
      { state := FSM_STATE_RUNNING, time := 0, prev_sample_time := 0,
        under_threshold := false, prev_input_state := false, toggles := 10 }
      PinDrive.low).1 (Or.inr rfl) (by decide)).1).trans (by decide)

/-- A step taken in SpinUp never touches the output pin (the SPIN_UP case
of the switch performs no `drive_low`/`float_high` call). -/
theorem spinUp_pin_untouched (M sj t : Nat) (input : Bool) (c : Channel)
    (pin : PinDrive) (h : c.state = FSM_STATE_SPIN_UP) :
    (fsmStep M sj t input c pin).2 = pin := by
  simp [fsmStep, h, FSM_STATE_INIT, FSM_STATE_POWER_ON, FSM_STATE_SPIN_UP]

/-- Pin invariant preservation: if being in SpinUp implies the pin is
driven low, the same holds after one step (SpinUp is entered only from
PowerOn, which drives the pin low on the transition). -/
theorem spinUp_pin_low_step (M sj t : Nat) (input : Bool) (c : Channel)
    (pin : PinDrive) (hinv : c.state = FSM_STATE_SPIN_UP → pin = PinDrive.low) :
    (fsmStep M sj t input c pin).1.state = FSM_STATE_SPIN_UP →
      (fsmStep M sj t input c pin).2 = PinDrive.low := by
  intro h'
  by_cases h0 : c.state = FSM_STATE_INIT
  · simp [fsmStep, h0, FSM_STATE_INIT, FSM_STATE_POWER_ON, FSM_STATE_SPIN_UP] at h'
  by_cases h1 : c.state = FSM_STATE_POWER_ON
  · by_cases hpw : POWER_ON_JIFFIES < wsub M t c.time
    · simp [fsmStep, h0, h1, FSM_STATE_INIT, FSM_STATE_POWER_ON, hpw]
    · simp [fsmStep, h0, h1, FSM_STATE_INIT, FSM_STATE_POWER_ON,
        FSM_STATE_SPIN_UP, hpw] at h'
  by_cases h2 : c.state = FSM_STATE_SPIN_UP
  · rw [spinUp_pin_untouched M sj t input c pin h2]
    exact hinv h2
  by_cases h3 : c.state = FSM_STATE_RUNNING
  · exfalso
    by_cases htg : input ≠ c.prev_input_state <;>
      by_cases hwin : sj < wsub M t c.prev_sample_time <;>
        simp [fsmStep, h0, h1, h2, h3, FSM_STATE_INIT, FSM_STATE_POWER_ON,
          FSM_STATE_SPIN_UP, FSM_STATE_RUNNING, htg, hwin] at h'
  · simp [fsmStep, h0, h1, h2, h3] at h'

/-- Pin invariant over a run. -/
theorem spinUp_pin_low_run (M sj : Nat) (steps : List (Nat × Bool)) :
    ∀ (c : Channel) (pin : PinDrive),
      (c.state = FSM_STATE_SPIN_UP → pin = PinDrive.low) →
      (fsmRun M sj steps c pin).1.state = FSM_STATE_SPIN_UP →
        (fsmRun M sj steps c pin).2 = PinDrive.low := by
  induction steps with
  | nil => intro c pin hinv h; exact hinv h
  | cons st ss ih =>
    intro c pin hinv
    show (fsmRun M sj ss (fsmStep M sj st.1 st.2 c pin).1
        (fsmStep M sj st.1 st.2 c pin).2).1.state = FSM_STATE_SPIN_UP → _
    exact ih _ _ (spinUp_pin_low_step M sj st.1 st.2 c pin hinv)

/-- Claim C6: a SpinUp step leaves the output pin exactly as it was — in
particular driven low along any run from the zeroed channel, whatever the
interim `under_threshold` value says — while a Running step drives the pin
from the (freshly updated) `under_threshold`: floated high when it is
true (rotor judged locked), driven low when it is false. -/
theorem c6_output_correctness (M sj : Nat) :
    (∀ t input (c : Channel) pin, c.state = FSM_STATE_SPIN_UP →
        (fsmStep M sj t input c pin).2 = pin)
    ∧ (∀ steps,
        (fsmRun M sj steps initChannel PinDrive.floating).1.state = FSM_STATE_SPIN_UP →
        (fsmRun M sj steps initChannel PinDrive.floating).2 = PinDrive.low)
    ∧ (∀ t input (c : Channel) pin, c.state = FSM_STATE_RUNNING →
        (fsmStep M sj t input c pin).2
          = if (fsmStep M sj t input c pin).1.under_threshold then PinDrive.floating
            else PinDrive.low) := by
  refine ⟨spinUp_pin_untouched M sj, ?_, ?_⟩
  · intro steps
    exact spinUp_pin_low_run M sj steps initChannel PinDrive.floating
      (by intro h; simp [initChannel, FSM_STATE_INIT, FSM_STATE_SPIN_UP] at h)
  · intro t input c pin h
    simp [fsmStep, h, FSM_STATE_INIT, FSM_STATE_POWER_ON, FSM_STATE_SPIN_UP,
      FSM_STATE_RUNNING]

/-- Witness for C6: the zeroed channel stepped at ticks 0 then 1 is in
SpinUp with its pin driven low, even though `under_threshold` is false (the
spinning verdict); a Running channel whose window latches `under_threshold`
true floats its pin high. -/
theorem c6_witness :
    (fsmRun U32 1 [(0, false), (1, false)] initChannel PinDrive.floating).2
      = PinDrive.low
    ∧ (fsmStep U32 1 5 false
        { state := FSM_STATE_RUNNING, time := 0, prev_sample_time := 0,
          under_threshold := false, prev_input_state := false, toggles := 10 }
        PinDrive.low).2
      = if (fsmStep U32 1 5 false
          { state := FSM_STATE_RUNNING, time := 0, prev_sample_time := 0,
            under_threshold := false, prev_input_state := false, toggles := 10 }
          PinDrive.low).1.under_threshold then PinDrive.floating else PinDrive.low := by
  constructor
  · exact (c6_output_correctness U32 1).2.1 [(0, false), (1, false)] (by decide)
  · exact (c6_output_correctness U32 1).2.2 5 false
      { state := FSM_STATE_RUNNING, time := 0, prev_sample_time := 0,
        under_threshold := false, prev_input_state := false, toggles := 10 }
      PinDrive.low rfl

/-- Claim C7: the SpinUp→Running transition itself touches only `state`.
First, the sampling fields produced by a SpinUp step agree with those
produced by a Running step from the same channel data — the window
boundary check and reset logic is identical in the two states, so no
window is skipped or double-reset across the transition.  Second, a
non-boundary SpinUp step (whether or not it transitions) leaves
`prev_sample_time` and `under_threshold` untouched and updates `toggles`
and `prev_input_state` only by its own toggle detection.  Third, a
mid-window transition step with a quiet input changes nothing but the
state field. -/
theorem c7_transition_frame (M sj t : Nat) (input : Bool) (c : Channel)
    (pin : PinDrive) (h : c.state = FSM_STATE_SPIN_UP) :
    ((fsmStep M sj t input c pin).1.toggles
        = (fsmStep M sj t input { c with state := FSM_STATE_RUNNING } pin).1.toggles
      ∧ (fsmStep M sj t input c pin).1.prev_sample_time
        = (fsmStep M sj t input { c with state := FSM_STATE_RUNNING } pin).1.prev_sample_time
      ∧ (fsmStep M sj t input c pin).1.under_threshold
        = (fsmStep M sj t input { c with state := FSM_STATE_RUNNING } pin).1.under_threshold
      ∧ (fsmStep M sj t input c pin).1.prev_input_state
        = (fsmStep M sj t input { c with state := FSM_STATE_RUNNING } pin).1.prev_input_state)
    ∧ (¬ sj < wsub M t c.prev_sample_time →
        (fsmStep M sj t input c pin).1.prev_sample_time = c.prev_sample_time
        ∧ (fsmStep M sj t input c pin).1.under_threshold = c.under_threshold
        ∧ (fsmStep M sj t input c pin).1.toggles
            = (if input ≠ c.prev_input_state then (c.toggles + 1) % U32 else c.toggles))
    ∧ (input = c.prev_input_state → ¬ sj < wsub M t c.prev_sample_time →
        SPIN_UP_JIFFIES sj < wsub M t c.time →
        fsmStep M sj t input c pin = ({ c with state := FSM_STATE_RUNNING }, pin)) := by
  refine ⟨?_, ?_, ?_⟩
  · by_cases htg : input ≠ c.prev_input_state <;>
      by_cases hwin : sj < wsub M t c.prev_sample_time <;>
        by_cases htr : SPIN_UP_JIFFIES sj < wsub M t c.time <;>
          simp [fsmStep, h, FSM_STATE_INIT, FSM_STATE_POWER_ON, FSM_STATE_SPIN_UP,
            FSM_STATE_RUNNING, htg, hwin, htr]
  · intro hwin
    by_cases htg : input ≠ c.prev_input_state <;>
      by_cases htr : SPIN_UP_JIFFIES sj < wsub M t c.time <;>
        simp [fsmStep, h, FSM_STATE_INIT, FSM_STATE_POWER_ON, FSM_STATE_SPIN_UP,
          FSM_STATE_RUNNING, htg, hwin, htr]
  · intro htg hwin htr
    simp [fsmStep, h, FSM_STATE_INIT, FSM_STATE_POWER_ON, FSM_STATE_SPIN_UP,
      FSM_STATE_RUNNING, htg, hwin, htr]

/-- Witness for C7: with `sj = 1`, a SpinUp channel entered at tick 0 whose
current window started at tick 7, stepped at tick 7 with a quiet input:
the window boundary does not fire (elapsed 0) but the transition does
(elapsed 7 > 5), and only the state field changes. -/
theorem c7_witness :
    fsmStep U32 1 7 false
      { state := FSM_STATE_SPIN_UP, time := 0, prev_sample_time := 7,
        under_threshold := false, prev_input_state := false, toggles := 3 }
      PinDrive.low
    = ({ state := FSM_STATE_RUNNING, time := 0, prev_sample_time := 7,
         under_threshold := false, prev_input_state := false, toggles := 3 },
       PinDrive.low) :=
  (c7_transition_frame U32 1 7 false
    { state := FSM_STATE_SPIN_UP, time := 0, prev_sample_time := 7,
      under_threshold := false, prev_input_state := false, toggles := 3 }
    PinDrive.low rfl).2.2 rfl (by decide) (by decide)

/-- The `default` case of the switch: an out-of-range state forces the
fail-safe output (`float_high`) and leaves the channel untouched. -/
theorem fault_step (M sj t : Nat) (input : Bool) (c : Channel) (pin : PinDrive)
    (h : 3 < c.state) :
    fsmStep M sj t input c pin = (c, PinDrive.floating) := by
  have h0 : ¬ c.state = FSM_STATE_INIT := by unfold FSM_STATE_INIT; omega
  have h1 : ¬ c.state = FSM_STATE_POWER_ON := by unfold FSM_STATE_POWER_ON; omega
  have h2 : ¬ c.state = FSM_STATE_SPIN_UP := by unfold FSM_STATE_SPIN_UP; omega
  have h3 : ¬ c.state = FSM_STATE_RUNNING := by unfold FSM_STATE_RUNNING; omega
  simp [fsmStep, h0, h1, h2, h3]

/-- A faulted channel stays faulted for an entire run, its pin floating. -/
theorem fault_run (M sj : Nat) (c : Channel) (h : 3 < c.state) :
    ∀ steps : List (Nat × Bool),
      fsmRun M sj steps c PinDrive.floating = (c, PinDrive.floating) := by
  intro steps
  induction steps with
  | nil => rfl
  | cons st ss ih =>
    show fsmRun M sj ss (fsmStep M sj st.1 st.2 c PinDrive.floating).1
        (fsmStep M sj st.1 st.2 c PinDrive.floating).2 = _
    rw [fault_step M sj st.1 st.2 c PinDrive.floating h]
    exact ih

/-- Claim C8: a channel whose state field lies outside
{Init, PowerOn, SpinUp, Running} (i.e. outside {0,1,2,3}) has its output
forced to float high (the fail-safe rotor-locked signal) on the next step,
with no state transition; consequently every subsequent step repeats that
same fault-handling behavior. -/
theorem c8_failsafe (M sj t : Nat) (input : Bool) (c : Channel) (pin : PinDrive)
    (h : 3 < c.state) :
    fsmStep M sj t input c pin = (c, PinDrive.floating)
    ∧ (∀ steps : List (Nat × Bool),
        fsmRun M sj steps c PinDrive.floating = (c, PinDrive.floating))
    ∧ (∀ steps : List (Nat × Bool), steps ≠ [] →
        (fsmRun M sj steps c pin).1 = c
        ∧ (fsmRun M sj steps c pin).2 = PinDrive.floating) := by
  refine ⟨fault_step M sj t input c pin h, fault_run M sj c h, ?_⟩
  intro steps hne
  cases steps with
  | nil => exact absurd rfl hne
  | cons st ss =>
    have hrun : fsmRun M sj (st :: ss) c pin
        = fsmRun M sj ss (fsmStep M sj st.1 st.2 c pin).1
            (fsmStep M sj st.1 st.2 c pin).2 := rfl
    rw [hrun, fault_step M sj st.1 st.2 c pin h, fault_run M sj c h ss]
    exact ⟨rfl, rfl⟩

/-- Witness for C8: a channel whose state field holds 7 is untouched and
its pin floats high across a step and a further two-step run. -/
theorem c8_witness :
    fsmStep U32 1 4 true
      { state := 7, time := 0, prev_sample_time := 0, under_threshold := false,
        prev_input_state := false, toggles := 0 }
      PinDrive.low
    = ({ state := 7, time := 0, prev_sample_time := 0, under_threshold := false,
         prev_input_state := false, toggles := 0 }, PinDrive.floating)
    ∧ (fsmRun U32 1 [(4, true), (9, false)]
        { state := 7, time := 0, prev_sample_time := 0, under_threshold := false,
          prev_input_state := false, toggles := 0 }
        PinDrive.low).2 = PinDrive.floating := by
  have h := c8_failsafe U32 1 4 true
    { state := 7, time := 0, prev_sample_time := 0, under_threshold := false,
      prev_input_state := false, toggles := 0 }
    PinDrive.low (by decide)
  exact ⟨h.1, (h.2.2 [(4, true), (9, false)] (by decide)).2⟩

/-- Closed form of the state field after one step: Init always advances to
PowerOn; PowerOn advances to SpinUp when the power-on wait has elapsed;
SpinUp advances to Running when the spin-up wait has elapsed; Running and
out-of-range states are fixed. -/
theorem fsmStep_state (M sj t : Nat) (input : Bool) (c : Channel) (pin : PinDrive) :
    (fsmStep M sj t input c pin).1.state
      = if c.state = FSM_STATE_INIT then FSM_STATE_POWER_ON
        else if c.state = FSM_STATE_POWER_ON then
          (if POWER_ON_JIFFIES < wsub M t c.time then FSM_STATE_SPIN_UP else c.state)
        else if c.state = FSM_STATE_SPIN_UP then
          (if SPIN_UP_JIFFIES sj < wsub M t c.time then FSM_STATE_RUNNING else c.state)
        else c.state := by
  by_cases h0 : c.state = FSM_STATE_INIT
  · simp [fsmStep, h0]
  by_cases h1 : c.state = FSM_STATE_POWER_ON
  · by_cases hpw : POWER_ON_JIFFIES < wsub M t c.time <;>
      simp [fsmStep, h0, h1, FSM_STATE_INIT, FSM_STATE_POWER_ON, hpw]
  by_cases h2 : c.state = FSM_STATE_SPIN_UP
  · by_cases htg : input ≠ c.prev_input_state <;>
      by_cases hwin : sj < wsub M t c.prev_sample_time <;>
        by_cases htr : SPIN_UP_JIFFIES sj < wsub M t c.time <;>
          simp [fsmStep, h0, h1, h2, FSM_STATE_INIT, FSM_STATE_POWER_ON,
            FSM_STATE_SPIN_UP, FSM_STATE_RUNNING, htg, hwin, htr]
  by_cases h3 : c.state = FSM_STATE_RUNNING
  · by_cases htg : input ≠ c.prev_input_state <;>
      by_cases hwin : sj < wsub M t c.prev_sample_time <;>
        simp [fsmStep, h0, h1, h2, h3, FSM_STATE_INIT, FSM_STATE_POWER_ON,
          FSM_STATE_SPIN_UP, FSM_STATE_RUNNING, htg, hwin]
  · simp [fsmStep, h0, h1, h2, h3]

/-- The state field never decreases across one step. -/
theorem state_mono_step (M sj t : Nat) (input : Bool) (c : Channel) (pin : PinDrive) :
    c.state ≤ (fsmStep M sj t input c pin).1.state := by
  rw [fsmStep_state]
  simp only [FSM_STATE_INIT, FSM_STATE_POWER_ON, FSM_STATE_SPIN_UP, FSM_STATE_RUNNING,
    POWER_ON_JIFFIES]
  split
  · omega
  split
  · split <;> omega
  split
  · split <;> omega
  · omega

/-- The state field never decreases across a run. -/
theorem state_mono_run (M sj : Nat) (steps : List (Nat × Bool)) :
    ∀ (c : Channel) (pin : PinDrive), c.state ≤ (fsmRun M sj steps c pin).1.state := by
  induction steps with
  | nil => intro c pin; exact Nat.le_refl _
  | cons st ss ih =>
    intro c pin
    exact Nat.le_trans (state_mono_step M sj st.1 st.2 c pin)
      (ih (fsmStep M sj st.1 st.2 c pin).1 (fsmStep M sj st.1 st.2 c pin).2)

/-- Running is a fixed point of the state field. -/
theorem running_stays_step (M sj t : Nat) (input : Bool) (c : Channel)
    (pin : PinDrive) (h : c.state = FSM_STATE_RUNNING) :
    (fsmStep M sj t input c pin).1.state = FSM_STATE_RUNNING := by
  rw [fsmStep_state]
  simp [h, FSM_STATE_INIT, FSM_STATE_POWER_ON, FSM_STATE_SPIN_UP, FSM_STATE_RUNNING]

/-- Claim C9: the state field only ever moves forward in the fixed order
Init → PowerOn → SpinUp → Running: one step takes Init to PowerOn, PowerOn
to itself or SpinUp, SpinUp to itself or Running, and Running to Running;
the state is non-decreasing across every step and every run (so no state
is re-entered once left), and Running is terminal across any run. -/
theorem c9_unidirectional (M sj t : Nat) (input : Bool) (c : Channel) (pin : PinDrive) :
    (c.state = FSM_STATE_INIT →
      (fsmStep M sj t input c pin).1.state = FSM_STATE_POWER_ON)
    ∧ (c.state = FSM_STATE_POWER_ON →
        (fsmStep M sj t input c pin).1.state = FSM_STATE_POWER_ON
        ∨ (fsmStep M sj t input c pin).1.state = FSM_STATE_SPIN_UP)
    ∧ (c.state = FSM_STATE_SPIN_UP →
        (fsmStep M sj t input c pin).1.state = FSM_STATE_SPIN_UP
        ∨ (fsmStep M sj t input c pin).1.state = FSM_STATE_RUNNING)
    ∧ (c.state = FSM_STATE_RUNNING →
        (fsmStep M sj t input c pin).1.state = FSM_STATE_RUNNING)
    ∧ c.state ≤ (fsmStep M sj t input c pin).1.state
    ∧ (∀ steps : List (Nat × Bool), c.state ≤ (fsmRun M sj steps c pin).1.state)
    ∧ (c.state = FSM_STATE_RUNNING → ∀ steps : List (Nat × Bool),
        (fsmRun M sj steps c pin).1.state = FSM_STATE_RUNNING) := by
  refine ⟨?_, ?_, ?_, running_stays_step M sj t input c pin,
    state_mono_step M sj t input c pin, fun steps => state_mono_run M sj steps c pin, ?_⟩
  · intro h
    rw [fsmStep_state]
    simp [h]
  · intro h
    rw [fsmStep_state]
    by_cases hpw : POWER_ON_JIFFIES < wsub M t c.time <;>
      simp [h, FSM_STATE_INIT, FSM_STATE_POWER_ON, hpw]
  · intro h
    rw [fsmStep_state]
    by_cases htr : SPIN_UP_JIFFIES sj < wsub M t c.time <;>
      simp [h, FSM_STATE_INIT, FSM_STATE_POWER_ON, FSM_STATE_SPIN_UP, htr]
  · intro h
    have key : ∀ (ss : List (Nat × Bool)) (d : Channel) (p : PinDrive),
        d.state = FSM_STATE_RUNNING →
        (fsmRun M sj ss d p).1.state = FSM_STATE_RUNNING := by
      intro ss
      induction ss with
      | nil => intro d p hd; exact hd
      | cons st rest ih =>
        intro d p hd
        exact ih (fsmStep M sj st.1 st.2 d p).1 (fsmStep M sj st.1 st.2 d p).2
          (running_stays_step M sj st.1 st.2 d p hd)
    exact fun steps => key steps c pin h

/-- Witness for C9: a Running channel stays Running across a two-step run,
and the zeroed channel advances Init→PowerOn on its first step. -/
theorem c9_witness :
    (fsmStep U32 1 0 false initChannel PinDrive.floating).1.state
      = FSM_STATE_POWER_ON
    ∧ (fsmRun U32 1 [(3, true), (9, false)]
        { state := FSM_STATE_RUNNING, time := 0, prev_sample_time := 0,
          under_threshold := false, prev_input_state := false, toggles := 0 }
        PinDrive.low).1.state = FSM_STATE_RUNNING := by
  constructor
  · exact (c9_unidirectional U32 1 0 false initChannel PinDrive.floating).1 rfl
  · exact (c9_unidirectional U32 1 3 true
      { state := FSM_STATE_RUNNING, time := 0, prev_sample_time := 0,
        under_threshold := false, prev_input_state := false, toggles := 0 }
      PinDrive.low).2.2.2.2.2.2 rfl [(3, true), (9, false)]

/-- Ghost-instrumented step for window-latch tracking: performs `fsmStep`
and additionally records, as an `Option Bool`, the verdict latched at the
most recent window boundary crossed in SpinUp or Running (`none` while no
window has ever been latched).  The boundary condition mirrors the sampling
step: it fires exactly when the channel is in SpinUp or Running and the
elapsed time since `prev_sample_time` exceeds `sj`. -/
def fsmStepG (M sj t : Nat) (input : Bool)
    (s : Channel × PinDrive × Option Bool) : Channel × PinDrive × Option Bool :=
  let r := fsmStep M sj t input s.1 s.2.1
  let g := if (s.1.state = FSM_STATE_SPIN_UP ∨ s.1.state = FSM_STATE_RUNNING)
      ∧ sj < wsub M t s.1.prev_sample_time then some r.1.under_threshold else s.2.2
  (r.1, r.2, g)

/-- Ghost-instrumented run. -/
def fsmRunG (M sj : Nat) (steps : List (Nat × Bool))
    (s : Channel × PinDrive × Option Bool) : Channel × PinDrive × Option Bool :=
  steps.foldl (fun s st => fsmStepG M sj st.1 st.2 s) s

/-- The ghost-instrumented run projects onto the plain run. -/
theorem fsmRunG_project (M sj : Nat) (steps : List (Nat × Bool)) :
    ∀ s : Channel × PinDrive × Option Bool,
      (fsmRunG M sj steps s).1 = (fsmRun M sj steps s.1 s.2.1).1
      ∧ (fsmRunG M sj steps s).2.1 = (fsmRun M sj steps s.1 s.2.1).2 := by
  induction steps with
  | nil => intro s; exact ⟨rfl, rfl⟩
  | cons st ss ih =>
    intro s
    have hcons : fsmRunG M sj (st :: ss) s
        = fsmRunG M sj ss (fsmStepG M sj st.1 st.2 s) := rfl
    have hcons2 : fsmRun M sj (st :: ss) s.1 s.2.1
        = fsmRun M sj ss (fsmStep M sj st.1 st.2 s.1 s.2.1).1
            (fsmStep M sj st.1 st.2 s.1 s.2.1).2 := rfl
    rw [hcons, hcons2]
    have hproj : (fsmStepG M sj st.1 st.2 s).1
        = (fsmStep M sj st.1 st.2 s.1 s.2.1).1 := rfl
    have hproj2 : (fsmStepG M sj st.1 st.2 s).2.1
        = (fsmStep M sj st.1 st.2 s.1 s.2.1).2 := rfl
    have hih := ih (fsmStepG M sj st.1 st.2 s)
    rw [hproj, hproj2] at hih
    exact hih

/-- Invariant tying the ghost latch record to the channel: no verdict is
latched before SpinUp is entered; in SpinUp with no latch yet, the window
start still equals the state entry time; a latched verdict agrees with
`under_threshold` in SpinUp and Running; and Running implies some window
has been latched. -/
def LatchInv (s : Channel × PinDrive × Option Bool) : Prop :=
  ((s.1.state = FSM_STATE_INIT ∨ s.1.state = FSM_STATE_POWER_ON) → s.2.2 = none)
  ∧ (s.1.state = FSM_STATE_SPIN_UP → s.2.2 = none →
      s.1.prev_sample_time = s.1.time)
  ∧ (∀ v, s.2.2 = some v →
      (s.1.state = FSM_STATE_SPIN_UP ∨ s.1.state = FSM_STATE_RUNNING) →
      s.1.under_threshold = v)
  ∧ (s.1.state = FSM_STATE_RUNNING → ∃ v, s.2.2 = some v)

/-- The latch invariant is preserved by every ghost step.  The key case is
a SpinUp→Running transition on a step whose window boundary does not fire:
then a window must have been latched earlier, because on SpinUp entry
`prev_sample_time = time`, `SPIN_UP_JIFFIES sj ≥ sj`, and the boundary
check precedes the transition check inside the same invocation. -/
theorem latchInv_step (M sj t : Nat) (input : Bool)
    (s : Channel × PinDrive × Option Bool) (hinv : LatchInv s) :
    LatchInv (fsmStepG M sj t input s) := by
  obtain ⟨c, pin, g⟩ := s
  obtain ⟨i1, i2, i3, i4⟩ := hinv
  simp only [LatchInv] at *
  by_cases h0 : c.state = FSM_STATE_INIT
  · have hg : g = none := i1 (Or.inl h0)
    simp [fsmStepG, fsmStep, h0, hg, FSM_STATE_INIT, FSM_STATE_POWER_ON,
      FSM_STATE_SPIN_UP, FSM_STATE_RUNNING]
  by_cases h1 : c.state = FSM_STATE_POWER_ON
  · have hg : g = none := i1 (Or.inr h1)
    by_cases hpw : POWER_ON_JIFFIES < wsub M t c.time <;>
      simp [fsmStepG, fsmStep, h0, h1, hg, hpw, FSM_STATE_INIT, FSM_STATE_POWER_ON,
        FSM_STATE_SPIN_UP, FSM_STATE_RUNNING]
  by_cases h2 : c.state = FSM_STATE_SPIN_UP
  · by_cases hwin : sj < wsub M t c.prev_sample_time
    · by_cases htg : input ≠ c.prev_input_state <;>
        by_cases htr : SPIN_UP_JIFFIES sj < wsub M t c.time <;>
          simp [fsmStepG, fsmStep, h0, h1, h2, htg, hwin, htr, FSM_STATE_INIT,
            FSM_STATE_POWER_ON, FSM_STATE_SPIN_UP, FSM_STATE_RUNNING]
    · by_cases htr : SPIN_UP_JIFFIES sj < wsub M t c.time
      · cases hg : g with
        | none =>
          exfalso
          have hpt : c.prev_sample_time = c.time := i2 h2 hg
          apply hwin
          rw [hpt]
          have hle : sj ≤ SPIN_UP_JIFFIES sj := by unfold SPIN_UP_JIFFIES; omega
          omega
        | some v =>
          have hu : c.under_threshold = v := i3 v hg (Or.inl h2)
          by_cases htg : input ≠ c.prev_input_state <;>
            simp [fsmStepG, fsmStep, h0, h1, h2, htg, hwin, htr, hg, hu,
              FSM_STATE_INIT, FSM_STATE_POWER_ON, FSM_STATE_SPIN_UP,
              FSM_STATE_RUNNING]
      · by_cases htg : input ≠ c.prev_input_state <;>
          (simp [fsmStepG, fsmStep, h0, h1, h2, htg, hwin, htr, FSM_STATE_INIT,
            FSM_STATE_POWER_ON, FSM_STATE_SPIN_UP, FSM_STATE_RUNNING];
           exact ⟨i2 h2, fun hv => i3 false hv (Or.inl h2),
             fun hv => i3 true hv (Or.inl h2)⟩)
  by_cases h3 : c.state = FSM_STATE_RUNNING
  · by_cases hwin : sj < wsub M t c.prev_sample_time
    · by_cases htg : input ≠ c.prev_input_state <;>
        simp [fsmStepG, fsmStep, h0, h1, h2, h3, htg, hwin, FSM_STATE_INIT,
          FSM_STATE_POWER_ON, FSM_STATE_SPIN_UP, FSM_STATE_RUNNING]
    · by_cases htg : input ≠ c.prev_input_state <;>
        (simp [fsmStepG, fsmStep, h0, h1, h2, h3, htg, hwin, FSM_STATE_INIT,
          FSM_STATE_POWER_ON, FSM_STATE_SPIN_UP, FSM_STATE_RUNNING, i4 h3];
         exact ⟨fun hv => i3 false hv (Or.inr h3),
           fun hv => i3 true hv (Or.inr h3)⟩)
  · simp [fsmStepG, fsmStep, h0, h1, h2, h3]

/-- The latch invariant holds for the zero-initialised channel with no
latch recorded. -/
theorem latchInv_init : LatchInv (initChannel, PinDrive.floating, none) := by
  refine ⟨fun _ => rfl, ?_, ?_, ?_⟩
  · intro h
    simp [initChannel, FSM_STATE_INIT, FSM_STATE_SPIN_UP] at h
  · intro v hv
    simp at hv
  · intro h
    simp [initChannel, FSM_STATE_INIT, FSM_STATE_RUNNING] at h

/-- The latch invariant is preserved by every ghost run. -/
theorem latchInv_run (M sj : Nat) (steps : List (Nat × Bool)) :
    ∀ s, LatchInv s → LatchInv (fsmRunG M sj steps s) := by
  induction steps with
  | nil => intro s h; exact h
  | cons st ss ih =>
    intro s h
    exact ih (fsmStepG M sj st.1 st.2 s) (latchInv_step M sj st.1 st.2 s h)

/-- Claim C10: the ghost-instrumented run agrees with the actual run on the
channel and pin; and whenever a run from the zero-initialised channel ends
in Running, some window boundary was crossed during SpinUp or Running (the
ghost holds a latched verdict) and `under_threshold` equals that latched
verdict — so the first Running output is driven by a verdict computed from
a completed sample window, never by the zero-initialised startup default.
This needs no lower bound on `sj` beyond `SPIN_UP_JIFFIES sj ≥ sj`, which
holds since `SPIN_UP_JIFFIES sj = sj * 5`. -/
theorem c10_verdict_latched (M sj : Nat) (steps : List (Nat × Bool)) :
    ((fsmRunG M sj steps (initChannel, PinDrive.floating, none)).1
        = (fsmRun M sj steps initChannel PinDrive.floating).1
      ∧ (fsmRunG M sj steps (initChannel, PinDrive.floating, none)).2.1
        = (fsmRun M sj steps initChannel PinDrive.floating).2)
    ∧ ((fsmRunG M sj steps (initChannel, PinDrive.floating, none)).1.state
          = FSM_STATE_RUNNING →
        ∃ v, (fsmRunG M sj steps (initChannel, PinDrive.floating, none)).2.2 = some v
          ∧ (fsmRunG M sj steps
              (initChannel, PinDrive.floating, none)).1.under_threshold = v) := by
  refine ⟨fsmRunG_project M sj steps _, ?_⟩
  intro h
  have hinv := latchInv_run M sj steps _ latchInv_init
  obtain ⟨v, hv⟩ := hinv.2.2.2 h
  exact ⟨v, hv, hinv.2.2.1 v hv (Or.inr h)⟩

/-- Witness for C10: with `sj = 1`, the run stepping at ticks 0, 1, 7
reaches Running (entering SpinUp at tick 1, latching the window verdict
and transitioning at tick 7); the ghost holds the latched verdict `true`
(no toggles were seen) and `under_threshold` equals it. -/
theorem c10_witness :
    ∃ v, (fsmRunG U32 1 [(0, false), (1, false), (7, false)]
        (initChannel, PinDrive.floating, none)).2.2 = some v
      ∧ (fsmRunG U32 1 [(0, false), (1, false), (7, false)]
          (initChannel, PinDrive.floating, none)).1.under_threshold = v :=
  (c10_verdict_latched U32 1 [(0, false), (1, false), (7, false)]).2 (by decide)

end RpmToLockedRotor
